import Mathlib

/-!
# Verification of the awspagination analyzer core

This file is a shallow embedding, in Lean 4, of the core of the
`awspagination` Go linter (file `awspagination.go`): the type-directed
pagination-token field resolver, the AWS-SDK provenance checker, the
consumption scanner, the per-assignment orchestration, and the diagnostic
builder.  Theorems about the embedded definitions settle the claims of the
specification.

Modelling conventions:

* Go `types.Type` values are heap objects compared by identity
  (`map[types.Type]bool`).  We model the resolved type graph as a list
  `TyEnv` of nodes; a type is an index (`Nat`) into that list, so type
  identity is index equality, and cyclic type graphs are representable.
* A node is a pointer type, a named type (carrying its declared name, the
  path of its declaring package, and the index of its underlying type), a
  struct type (ordered fields: name, type index, embedded flag), or some
  other kind of type (`basic`).
* The Go `seen` maps are passed by reference and mutated; here every
  traversal takes the current visited list and returns the updated one,
  so the sharing and threading of `seen` in the Go code is reproduced
  exactly.  The traversal functions return a subtype carrying the fact
  that they only ever add entries to `seen`; this is what makes the
  recursion (guarded by the visited set, as in Go) well-founded.
* Go strings are modelled as Lean `String` (sequences of characters;
  byte-level indexing in the Go code is only applied at ASCII positions in
  the analyzer, where the two views agree).
-/

/-- One node of the resolved type graph.  `ptr`, `named` and `struct`
correspond to `*types.Pointer`, `*types.Named` and `*types.Struct`;
`basic` stands for every other kind of type.  For `named`, `pkgPath` is
the declaring package path (`""` models a nil package).  A struct field is
`(name, type index, embedded flag)`. -/
inductive TyNode where
  | basic : TyNode
  | ptr (elem : Nat) : TyNode
  | named (name : String) (pkgPath : String) (underlying : Nat) : TyNode
  | struct (fields : List (String × Nat × Bool)) : TyNode
  deriving DecidableEq

/-- The resolved type graph: a type is an index into this list. -/
abbrev TyEnv := List TyNode

/-- `if ptr, ok := t.(*types.Pointer); ok { t = ptr.Elem() }` —
one level of pointer unwrapping. -/
def unwrapPtr (env : TyEnv) (t : Nat) : Nat :=
  match env[t]? with
  | some (.ptr e) => e
  | _ => t

/-- `if named, ok := t.(*types.Named); ok { t = named.Underlying() }` —
replace a named type by its underlying type. -/
def underlyingOf (env : TyEnv) (t : Nat) : Nat :=
  match env[t]? with
  | some (.named _ _ und) => und
  | _ => t

/-- `st, ok := t.(*types.Struct)`: whether the node at `u` is a struct. -/
def isStructAt (env : TyEnv) (u : Nat) : Bool :=
  match env[u]? with
  | some (.struct _) => true
  | _ => false

/-- The field list of the struct at `u` (empty if `u` is not a struct;
only read under an `isStructAt` guard). -/
def structFieldsAt (env : TyEnv) (u : Nat) : List (String × Nat × Bool) :=
  match env[u]? with
  | some (.struct fds) => fds
  | _ => []

/-! ## Configuration and token field lists (`awspagination.go` lines 20-76, 151-160) -/

/-- `defaultPaginationTokenFields`: the fixed, priority-ordered generic
token field list. -/
def defaultPaginationTokenFields : List String :=
  ["NextToken", "NextMarker", "Marker", "NextContinuationToken",
   "ContinuationToken", "NextPageToken", "NextPageMarker"]

/-- `apiSpecificPaginationFields`: service name (lowercase) to its special
pagination field names.  Modelled as a lookup function (Go map with fixed
keys). -/
def apiSpecificPaginationFields (service : String) : Option (List String) :=
  if service = "dynamodb" then some ["LastEvaluatedKey"]
  else if service = "apigateway" then some ["Position"]
  else if service = "route53" then
    some ["IsTruncated", "NextRecordName", "NextRecordType", "NextRecordIdentifier"]
  else none

/-- `Config`: the analyzer configuration (custom token fields appended to
the defaults, and the test-file toggle). -/
structure Config where
  customTokenFields : List String
  includeTests : Bool
  deriving DecidableEq

/-- `getPaginationTokenFields`: default fields plus the configured custom
fields (the Go function returns a fresh copy; value semantics make the
copy implicit here). -/
def getPaginationTokenFields (cfg : Config) : List String :=
  defaultPaginationTokenFields ++ cfg.customTokenFields

/-- `strings.ToLower`, character by character (the analyzer only lowercases
ASCII service names). -/
def goToLower (s : String) : String := String.mk (s.data.map Char.toLower)

/-- Accumulator loop of `strings.Split(value, ",")`. -/
def splitCommaAux : List Char → List Char → List String
  | [], acc => [String.mk acc.reverse]
  | c :: rest, acc =>
    if c = ',' then String.mk acc.reverse :: splitCommaAux rest []
    else splitCommaAux rest (c :: acc)

/-- `strings.Split(value, ",")`: the comma-separated segments of `value`
(adjacent commas yield empty segments, as in Go). -/
def goSplitComma (s : String) : List String := splitCommaAux s.data []

/-- `(*stringSliceFlag).Set`: no-op on the empty string, otherwise appends
the comma-separated segments; the `error` return is modelled as
`Option String` and is always `none` (nil). -/
def stringSliceFlagSet (s : List String) (value : String) : List String × Option String :=
  if value = "" then (s, none)
  else (s ++ goSplitComma value, none)

/-! ## Visited-set measure

The Go traversals terminate because each visit marks one more type in the
`seen` map before recursing.  The measure below (number of type-graph
indices not yet visited) decreases at every guarded recursion step and is
the termination argument for the three traversal functions. -/

/-- Number of type-graph indices not yet in the visited list. -/
def unvisited (env : TyEnv) (seen : List Nat) : Nat :=
  ((Finset.range env.length).filter (fun i => i ∉ seen)).card

theorem unvisited_le_of_subset {env : TyEnv} {s s' : List Nat} (h : s ⊆ s') :
    unvisited env s' ≤ unvisited env s := by
  apply Finset.card_le_card
  intro i hi
  simp only [Finset.mem_filter, Finset.mem_range] at hi ⊢
  exact ⟨hi.1, fun hm => hi.2 (h hm)⟩

theorem unvisited_lt_cons {env : TyEnv} {t : Nat} {seen : List Nat}
    (ht : t < env.length) (hns : t ∉ seen) :
    unvisited env (t :: seen) < unvisited env seen := by
  apply Finset.card_lt_card
  refine ⟨fun i hi => ?_, fun hsub => ?_⟩
  · simp only [Finset.mem_filter, Finset.mem_range, List.mem_cons] at hi ⊢
    exact ⟨hi.1, fun hm => hi.2 (Or.inr hm)⟩
  · have hmem : t ∈ (Finset.range env.length).filter (fun i => i ∉ seen) :=
      Finset.mem_filter.mpr ⟨Finset.mem_range.mpr ht, hns⟩
    exact (Finset.mem_filter.mp (hsub hmem)).2 (List.mem_cons_self t seen)

theorem lt_length_of_isStructAt {env : TyEnv} {t : Nat}
    (h : isStructAt env (underlyingOf env t) = true) : t < env.length := by
  by_cases hl : t < env.length
  · exact hl
  · exfalso
    have hnone : env[t]? = none := List.getElem?_eq_none_iff.mpr (Nat.le_of_not_lt hl)
    unfold underlyingOf at h
    rw [hnone] at h
    unfold isStructAt at h
    rw [hnone] at h
    exact Bool.noConfusion h

/-! ## Field Resolver (`awspagination.go` lines 369-462)

Each function takes the current visited list and returns the updated one
(the Go `seen` map is mutated through the recursion).  The subtype states
that entries are only added, never removed. -/

mutual

/-- `hasSpecificField(t, fieldName, seen)`: does the type at `t` have a
field named `fieldName`, directly or through embedded fields?  Unwraps one
pointer level, consults/marks `seen`, takes the underlying type of a named
type, checks direct fields first, then recurses into embedded fields. -/
def hasSpecificField (env : TyEnv) (t : Nat) (fieldName : String) (seen : List Nat) :
    {r : Bool × List Nat // seen ⊆ r.2} :=
  if h1 : unwrapPtr env t ∈ seen then ⟨(false, seen), List.Subset.refl _⟩
  else if h2 : isStructAt env (underlyingOf env (unwrapPtr env t)) = true then
    let fields := structFieldsAt env (underlyingOf env (unwrapPtr env t))
    -- Look for the specific field among direct fields
    if fields.any (fun fd => fd.1 == fieldName) then
      ⟨(true, unwrapPtr env t :: seen), List.subset_cons_self _ _⟩
    else
      -- Check embedded fields
      let r := hasSpecificFieldEmbedded env fieldName fields (unwrapPtr env t :: seen)
      ⟨r.val, fun _ hm => r.property (List.mem_cons_of_mem _ hm)⟩
  else ⟨(false, unwrapPtr env t :: seen), List.subset_cons_self _ _⟩
termination_by (unvisited env seen, 0)
decreasing_by
  exact Prod.Lex.left _ _ (unvisited_lt_cons (lt_length_of_isStructAt h2) h1)

/-- The embedded-field loop of `hasSpecificField` (`for ... if
field.Embedded()`), threading the mutated `seen` from one iteration to the
next. -/
def hasSpecificFieldEmbedded (env : TyEnv) (fieldName : String)
    (fds : List (String × Nat × Bool)) (seen : List Nat) :
    {r : Bool × List Nat // seen ⊆ r.2} :=
  match fds with
  | [] => ⟨(false, seen), List.Subset.refl _⟩
  | fd :: rest =>
    if fd.2.2 then
      let r1 := hasSpecificField env fd.2.1 fieldName seen
      if r1.val.1 then ⟨(true, r1.val.2), r1.property⟩
      else
        let r2 := hasSpecificFieldEmbedded env fieldName rest r1.val.2
        ⟨r2.val, fun _ hm => r2.property (r1.property hm)⟩
    else hasSpecificFieldEmbedded env fieldName rest seen
termination_by (unvisited env seen, fds.length + 1)
decreasing_by
  · exact Prod.Lex.right' _ (le_refl _) (by simp [List.length_cons])
  · rcases Nat.lt_or_ge (unvisited env r1.val.2) (unvisited env seen) with hlt | hge
    · exact Prod.Lex.left _ _ hlt
    · have heq : unvisited env r1.val.2 = unvisited env seen :=
        le_antisymm (unvisited_le_of_subset r1.property) hge
      rw [heq]
      exact Prod.Lex.right _ (by simp [List.length_cons])
  · exact Prod.Lex.right' _ (le_refl _) (by simp [List.length_cons])

end

mutual

/-- `hasPaginationTokenFieldRecursive(t, seen)`: first generic token field
(in priority order) structurally present in the type at `t`.  The Go
function reads the candidate list via `getPaginationTokenFields()` from
the package configuration, which is constant during a traversal; it is
passed here as the explicit `tokenFields` parameter.  Direct fields are
checked for all candidates before embedded fields are visited. -/
def hasPaginationTokenFieldRecursive (env : TyEnv) (tokenFields : List String)
    (t : Nat) (seen : List Nat) :
    {r : String × List Nat // seen ⊆ r.2} :=
  if h1 : unwrapPtr env t ∈ seen then ⟨("", seen), List.Subset.refl _⟩
  else if h2 : isStructAt env (underlyingOf env (unwrapPtr env t)) = true then
    let fields := structFieldsAt env (underlyingOf env (unwrapPtr env t))
    -- Look for any pagination token field among direct fields, in priority order
    match tokenFields.find? (fun tf => fields.any (fun fd => fd.1 == tf)) with
    | some tf => ⟨(tf, unwrapPtr env t :: seen), List.subset_cons_self _ _⟩
    | none =>
      -- Check embedded fields
      let r := hasPaginationTokenFieldRecursiveEmbedded env tokenFields fields
        (unwrapPtr env t :: seen)
      ⟨r.val, fun _ hm => r.property (List.mem_cons_of_mem _ hm)⟩
  else ⟨("", unwrapPtr env t :: seen), List.subset_cons_self _ _⟩
termination_by (unvisited env seen, 0)
decreasing_by
  exact Prod.Lex.left _ _ (unvisited_lt_cons (lt_length_of_isStructAt h2) h1)

/-- The embedded-field loop of `hasPaginationTokenFieldRecursive`,
threading `seen` and returning the first non-empty recursive result. -/
def hasPaginationTokenFieldRecursiveEmbedded (env : TyEnv) (tokenFields : List String)
    (fds : List (String × Nat × Bool)) (seen : List Nat) :
    {r : String × List Nat // seen ⊆ r.2} :=
  match fds with
  | [] => ⟨("", seen), List.Subset.refl _⟩
  | fd :: rest =>
    if fd.2.2 then
      let r1 := hasPaginationTokenFieldRecursive env tokenFields fd.2.1 seen
      if r1.val.1 = "" then
        let r2 := hasPaginationTokenFieldRecursiveEmbedded env tokenFields rest r1.val.2
        ⟨r2.val, fun _ hm => r2.property (r1.property hm)⟩
      else ⟨(r1.val.1, r1.val.2), r1.property⟩
    else hasPaginationTokenFieldRecursiveEmbedded env tokenFields rest seen
termination_by (unvisited env seen, fds.length + 1)
decreasing_by
  · exact Prod.Lex.right' _ (le_refl _) (by simp [List.length_cons])
  · rcases Nat.lt_or_ge (unvisited env r1.val.2) (unvisited env seen) with hlt | hge
    · exact Prod.Lex.left _ _ hlt
    · have heq : unvisited env r1.val.2 = unvisited env seen :=
        le_antisymm (unvisited_le_of_subset r1.property) hge
      rw [heq]
      exact Prod.Lex.right _ (by simp [List.length_cons])
  · exact Prod.Lex.right' _ (le_refl _) (by simp [List.length_cons])

end

/-- The service-specific loop of `hasPaginationTokenField`: tries each
registered field with `hasSpecificField`, sharing ONE `seen` map across
all the checks (the Go code creates the map once, before this loop). -/
def checkServiceFieldsShared (env : TyEnv) (t : Nat) :
    List String → List Nat → Option String × List Nat
  | [], seen => (none, seen)
  | f :: rest, seen =>
    let r := hasSpecificField env t f seen
    if r.val.1 then (some f, r.val.2) else checkServiceFieldsShared env t rest r.val.2

/-- `hasPaginationTokenField(t, serviceName)`: service-specific fields are
tried first (when the lowercased service name is registered), then the
generic list.  The single `seen` map created at the top is shared by every
check, including the final generic fallback — exactly as in the source. -/
def hasPaginationTokenField (env : TyEnv) (cfg : Config) (t : Nat)
    (serviceName : String) : String :=
  let afterService :=
    if serviceName ≠ "" then
      match apiSpecificPaginationFields (goToLower serviceName) with
      | some fields => checkServiceFieldsShared env t fields []
      | none => ((none : Option String), ([] : List Nat))
    else ((none : Option String), ([] : List Nat))
  match afterService with
  | (some f, _) => f
  | (none, seen) =>
    (hasPaginationTokenFieldRecursive env (getPaginationTokenFields cfg) t seen).val.1

/-- `getAllPaginationTokenFields(t, serviceName)`: all service-specific
fields present in the type (fresh `seen` map per field check); if none,
the first generic field found (fresh `seen` map). -/
def getAllPaginationTokenFields (env : TyEnv) (cfg : Config) (t : Nat)
    (serviceName : String) : List String :=
  let serviceFields :=
    if serviceName ≠ "" then
      match apiSpecificPaginationFields (goToLower serviceName) with
      | some sfs => sfs.filter (fun f => (hasSpecificField env t f []).val.1)
      | none => []
    else []
  if serviceFields ≠ [] then serviceFields
  else
    let d := (hasPaginationTokenFieldRecursive env (getPaginationTokenFields cfg) t []).val.1
    if d = "" then [] else [d]

/-! ## Provenance Checker (`awspagination.go` lines 512-591) -/

/-- First index at which `sub` occurs in `s` (`strings.Index`; `none`
models the -1 result). -/
def findSubstrIdx (s sub : List Char) : Option Nat :=
  if sub.isPrefixOf s then some 0
  else
    match s with
    | [] => none
    | _ :: rest => (findSubstrIdx rest sub).map (· + 1)

/-- The fixed trust marker identifying AWS SDK v2 service packages. -/
def awsSDKMarker : String := "aws-sdk-go-v2/service/"

/-- `isAWSSDKPackage(pkgPath)`: substring (not prefix) match against the
marker, so forks, proxies and vendored paths are recognized. -/
def isAWSSDKPackage (pkgPath : String) : Bool :=
  (findSubstrIdx pkgPath.data awsSDKMarker.data).isSome

/-- `extractServiceNameFromPackage(pkgPath)`: the path segment following
the marker, cut at the next `/`. -/
def extractServiceNameFromPackage (pkgPath : String) : String :=
  match findSubstrIdx pkgPath.data awsSDKMarker.data with
  | none => ""
  | some idx =>
    let servicePath := pkgPath.data.drop (idx + awsSDKMarker.data.length)
    match findSubstrIdx servicePath ['/'] with
    | some slashIdx => String.mk (servicePath.take slashIdx)
    | none => String.mk servicePath

/-- Whether the node at `t1` is a named type whose declaring package is an
AWS SDK package (`named.Obj().Pkg() != nil && isAWSSDKPackage(...)`). -/
def isNamedAWSAt (env : TyEnv) (t1 : Nat) : Bool :=
  match env[t1]? with
  | some (.named _ pkg _) => isAWSSDKPackage pkg
  | _ => false

mutual

/-- `isAWSSDKTypeRecursive(t, seen)`: unwraps one pointer level,
consults/marks `seen`, reports trusted if the type is a named type from an
AWS SDK package, otherwise descends into every field (embedded or not) of
the underlying struct. -/
def isAWSSDKTypeRecursive (env : TyEnv) (t : Nat) (seen : List Nat) :
    {r : Bool × List Nat // seen ⊆ r.2} :=
  if h1 : unwrapPtr env t ∈ seen then ⟨(false, seen), List.Subset.refl _⟩
  else if isNamedAWSAt env (unwrapPtr env t) then
    ⟨(true, unwrapPtr env t :: seen), List.subset_cons_self _ _⟩
  else if h2 : isStructAt env (underlyingOf env (unwrapPtr env t)) = true then
    let r := isAWSSDKTypeRecursiveFields env
      (structFieldsAt env (underlyingOf env (unwrapPtr env t))) (unwrapPtr env t :: seen)
    ⟨r.val, fun _ hm => r.property (List.mem_cons_of_mem _ hm)⟩
  else ⟨(false, unwrapPtr env t :: seen), List.subset_cons_self _ _⟩
termination_by (unvisited env seen, 0)
decreasing_by
  exact Prod.Lex.left _ _ (unvisited_lt_cons (lt_length_of_isStructAt h2) h1)

/-- The all-fields loop of `isAWSSDKTypeRecursive` (every field, not only
embedded ones), threading `seen`. -/
def isAWSSDKTypeRecursiveFields (env : TyEnv)
    (fds : List (String × Nat × Bool)) (seen : List Nat) :
    {r : Bool × List Nat // seen ⊆ r.2} :=
  match fds with
  | [] => ⟨(false, seen), List.Subset.refl _⟩
  | fd :: rest =>
    let r1 := isAWSSDKTypeRecursive env fd.2.1 seen
    if r1.val.1 then ⟨(true, r1.val.2), r1.property⟩
    else
      let r2 := isAWSSDKTypeRecursiveFields env rest r1.val.2
      ⟨r2.val, fun _ hm => r2.property (r1.property hm)⟩
termination_by (unvisited env seen, fds.length + 1)
decreasing_by
  · exact Prod.Lex.right' _ (le_refl _) (by simp [List.length_cons])
  · rcases Nat.lt_or_ge (unvisited env r1.val.2) (unvisited env seen) with hlt | hge
    · exact Prod.Lex.left _ _ hlt
    · have heq : unvisited env r1.val.2 = unvisited env seen :=
        le_antisymm (unvisited_le_of_subset r1.property) hge
      rw [heq]
      exact Prod.Lex.right _ (by simp [List.length_cons])

end

/-- `isAWSSDKType(t)`: entry point with a fresh `seen` map. -/
def isAWSSDKType (env : TyEnv) (t : Nat) : Bool :=
  (isAWSSDKTypeRecursive env t []).val.1

/-! ## AST model and Consumption Scanner (`awspagination.go` lines 464-510)

`ast.Node` trees are modelled by `GoNode`: identifiers, selector
expressions, call expressions (annotated with the resolved result type,
modelling `pass.TypesInfo.Types[callExpr]`), and a generic node with
children standing for every other statement/expression kind. -/

/-- The resolved type of a call expression: a single value or a tuple
(multiple return values); `none` on the annotation models a failed
`TypesInfo` lookup. -/
inductive GoResultTy where
  | single (t : Nat)
  | tuple (ts : List Nat)
  deriving DecidableEq

/-- A Go AST node (see module comment above). -/
inductive GoNode where
  | ident (name : String)
  | sel (x : GoNode) (selName : String)
  | call (fn : GoNode) (args : List GoNode) (resTy : Option GoResultTy)
  | node (children : List GoNode)

/-- `ast.Inspect`: does any node of the tree satisfy `p`?  (The Go
callback always returns true, so the whole tree is visited.) -/
def anyNode (p : GoNode → Bool) : GoNode → Bool
  | .ident n => p (.ident n)
  | .sel x s => p (.sel x s) || anyNode p x
  | .call f args r =>
    p (.call f args r) || anyNode p f || args.attach.any (fun a => anyNode p a.1)
  | .node cs => p (.node cs) || cs.attach.any (fun c => anyNode p c.1)
termination_by g => sizeOf g
decreasing_by
  · simp; omega
  · simp; omega
  · have := List.sizeOf_lt_of_mem a.2
    simp
    omega
  · have := List.sizeOf_lt_of_mem c.2
    simp
    omega

/-- Pattern 1 of `hasPaginationHandling`: a selector expression accessing
one of the token fields on the identifier `varName`. -/
def isTokenAccessNode (varName : String) (tokenFields : List String) : GoNode → Bool
  | .sel (.ident base) fname => tokenFields.any (fun tf => fname == tf) && base == varName
  | _ => false

/-- Pattern 2 of `hasPaginationHandling`: a call whose target is a
selector ending in `Paginator` (the Go test is `len(name) > 9 &&
name[len(name)-9:] == "Paginator"`) or exactly `HasMorePages`/`NextPage`. -/
def isPaginatorCallNode : GoNode → Bool
  | .call (.sel _ m) _ _ =>
    (decide (9 < m.data.length) && (m.data.drop (m.data.length - 9) == "Paginator".data))
      || m == "HasMorePages" || m == "NextPage"
  | _ => false

/-- `hasPaginationHandling(body, varName, tokenFields)`.  The Go function
computes the two pattern flags in a single `ast.Inspect` pass and returns
their disjunction; since the flags are only ever set to `true`, this
equals the disjunction of two whole-tree existence checks. -/
def hasPaginationHandling (body : GoNode) (varName : String)
    (tokenFields : List String) : Bool :=
  anyNode (isTokenAccessNode varName tokenFields) body || anyNode isPaginatorCallNode body

/-- `a` occurs (as a node) inside the tree `b`.  This is the declarative
counterpart of what `ast.Inspect` visits. -/
inductive SubNode : GoNode → GoNode → Prop where
  | refl (n : GoNode) : SubNode n n
  | selX {a x : GoNode} {s : String} : SubNode a x → SubNode a (.sel x s)
  | callFn {a f : GoNode} {args : List GoNode} {r : Option GoResultTy} :
      SubNode a f → SubNode a (.call f args r)
  | callArg {a b f : GoNode} {args : List GoNode} {r : Option GoResultTy} :
      b ∈ args → SubNode a b → SubNode a (.call f args r)
  | child {a c : GoNode} {cs : List GoNode} :
      c ∈ cs → SubNode a c → SubNode a (.node cs)

theorem anyNode_of_subNode {p : GoNode → Bool} {a b : GoNode}
    (hsub : SubNode a b) (hp : p a = true) : anyNode p b = true := by
  induction hsub with
  | refl =>
    cases a <;> simp [anyNode, hp]
  | selX _ ih => simp [anyNode, ih]
  | callFn _ ih => simp [anyNode, ih]
  | callArg hb _ ih =>
    simp only [anyNode, Bool.or_eq_true, List.any_eq_true]
    exact Or.inr ⟨⟨_, hb⟩, List.mem_attach _ _, ih⟩
  | child hc _ ih =>
    simp only [anyNode, Bool.or_eq_true, List.any_eq_true]
    exact Or.inr ⟨⟨_, hc⟩, List.mem_attach _ _, ih⟩

/-! ## Call-Site Extractor and Orchestrator (`awspagination.go` lines 215-311, 593-631) -/

/-- `apiCallInfo`: method name, service name and output type name
extracted best-effort from a call site (empty strings when unknown). -/
structure apiCallInfo where
  methodName : String
  serviceName : String
  typeName : String
  deriving DecidableEq

/-- `extractResultType`: the annotated result type of a call expression;
for a tuple the first component; `none` when the annotation is missing or
the tuple is empty. -/
def extractResultType : GoNode → Option Nat
  | .call _ _ (some (.single t)) => some t
  | .call _ _ (some (.tuple ts)) => ts.head?
  | _ => none

/-- `extractVariableName`: the name of a simple identifier, with the
blank identifier `_` (and every non-identifier) mapped to `""`. -/
def extractVariableName : GoNode → String
  | .ident n => if n == "_" then "" else n
  | _ => ""

/-- `extractAPICallInfo(callExpr, resultType)`: method name from the
selector target (if any), type and service name from the (pointer-
unwrapped) named result type. -/
def extractAPICallInfo (env : TyEnv) (callExpr : GoNode) (resultType : Nat) : apiCallInfo :=
  let methodName :=
    match callExpr with
    | .call (.sel _ m) _ _ => m
    | _ => ""
  match env[unwrapPtr env resultType]? with
  | some (.named nm pkg _) =>
    { methodName := methodName, typeName := nm,
      serviceName := extractServiceNameFromPackage pkg }
  | _ => { methodName := methodName, typeName := "", serviceName := "" }

/-! ## Diagnostic Builder (`awspagination.go` lines 633-689) -/

/-- The Oxford-comma field listing loop of `buildErrorMessage`
(`for i, field := range tokenFields`, with `", and "` before the last
field and `", "` before the middle ones). -/
def oxfordFrom (total : Nat) : Nat → List String → String
  | _, [] => ""
  | i, f :: rest =>
    (if i > 0 then (if i == total - 1 then ", and " else ", ") else "") ++ f ++
      oxfordFrom total (i + 1) rest

/-- The field-listing parenthetical of `buildErrorMessage` (the block
guarded by `len(tokenFields) > 0`). -/
def bemFieldsPart (tokenFields : List String) : String :=
  if tokenFields.length > 0 then
    if tokenFields.length == 1 then
      " (result has " ++ tokenFields.headD "" ++ " field)"
    else
      " (result has " ++ oxfordFrom tokenFields.length 0 tokenFields ++ " fields)"
  else ""

/-- The remedy suggestion of `buildErrorMessage`: the named paginator when
both service and method name are known, a generic phrase otherwise. -/
def bemRemedyPart (info : apiCallInfo) : String :=
  if info.serviceName ≠ "" ∧ info.methodName ≠ "" then
    "New" ++ info.methodName ++ "Paginator"
  else "a paginator"

/-- The `<variable>.` piece of `buildErrorMessage`. -/
def bemVarPart (varName : String) : String :=
  if varName ≠ "" then varName ++ "." else ""

/-- The trailing field-access suggestion of `buildErrorMessage`. -/
def bemLoopFieldPart (tokenFields : List String) : String :=
  if tokenFields.length > 0 then
    if tokenFields.length == 1 then tokenFields.headD "" ++ "."
    else tokenFields.headD "" ++ " (or other pagination fields)."
  else ""

/-- `buildErrorMessage(tokenFields, varName, info)`: deterministic message
composition (the Go `strings.Builder` writes, in source order, factored
into the segment functions above). -/
def buildErrorMessage (tokenFields : List String) (varName : String)
    (info : apiCallInfo) : String :=
  "missing pagination handling for AWS SDK List API call"
    ++ bemFieldsPart tokenFields
    ++ "\nWhen there are many results, only the first page is returned. Use "
    ++ bemRemedyPart info
    ++ " or loop with "
    ++ bemVarPart varName
    ++ bemLoopFieldPart tokenFields

/-- An assignment statement: left-hand targets and right-hand expressions. -/
structure AssignStmt where
  lhs : List GoNode
  rhs : List GoNode

/-- The body of `checkAssignment`'s per-index loop for one right-hand
expression: `some (i, message)` when a diagnostic is reported for the call
at position `i`, `none` when the site is skipped.  The diagnostic is
anchored at the call expression, identified here by its RHS index. -/
def checkOneAssignRhs (env : TyEnv) (cfg : Config) (lhs : List GoNode)
    (body : GoNode) (i : Nat) (rhsExpr : GoNode) : Option (Nat × String) :=
  match rhsExpr with
  | .call fn args resTy =>
    if i < lhs.length then
      match extractResultType (.call fn args resTy) with
      | none => none
      | some resultType =>
        let apiInfo := extractAPICallInfo env (.call fn args resTy) resultType
        if hasPaginationTokenField env cfg resultType apiInfo.serviceName = "" then none
        else if isAWSSDKType env resultType = false then none
        else
          let varName := extractVariableName (lhs.getD i (.node []))
          if varName = "" then none
          else
            let allTokenFields :=
              getAllPaginationTokenFields env cfg resultType apiInfo.serviceName
            if allTokenFields = [] then none
            else if hasPaginationHandling body varName allTokenFields = true then none
            else some (i, buildErrorMessage allTokenFields varName apiInfo)
    else none
  | _ => none

/-- The `for i, rightHandSide := range assignStmt.Rhs` loop of
`checkAssignment`, collecting the diagnostics in order. -/
def checkAssignmentFrom (env : TyEnv) (cfg : Config) (lhs : List GoNode)
    (body : GoNode) : Nat → List GoNode → List (Nat × String)
  | _, [] => []
  | i, r :: rest =>
    match checkOneAssignRhs env cfg lhs body i r with
    | some d => d :: checkAssignmentFrom env cfg lhs body (i + 1) rest
    | none => checkAssignmentFrom env cfg lhs body (i + 1) rest

/-- `checkAssignment(pass, assignStmt, funcDecl)`: examine every
right-hand call expression (paired with the left-hand target at the same
position) and collect the reported diagnostics. -/
def checkAssignment (env : TyEnv) (cfg : Config) (assign : AssignStmt)
    (body : GoNode) : List (Nat × String) :=
  checkAssignmentFrom env cfg assign.lhs body 0 assign.rhs

/-! ## Declarative notions used in stating the claims -/

/-- One traversal step on the type graph, as the specification describes
reachability: unwrap a pointer, pass from a named type to its underlying
type, or descend into any struct field. -/
inductive TyStep (env : TyEnv) : Nat → Nat → Prop where
  | ptr {t e : Nat} : env[t]? = some (.ptr e) → TyStep env t e
  | underlying {t u : Nat} {nm pkg : String} :
      env[t]? = some (.named nm pkg u) → TyStep env t u
  | field {t : Nat} {fds : List (String × Nat × Bool)} {fd : String × Nat × Bool} :
      env[t]? = some (.struct fds) → fd ∈ fds → TyStep env t fd.2.1

/-- The node at `t` is a named type declared in an AWS SDK service
package. -/
def TrustedAt (env : TyEnv) (t : Nat) : Prop :=
  ∃ nm pkg u, env[t]? = some (.named nm pkg u) ∧ isAWSSDKPackage pkg = true

/-- No entry of the visited list is a directly trusted node (invariant of
the provenance search: a visit of a trusted node returns true at once, so
a node can only end up in `seen` with the search still running if it is
untrusted). -/
def SeenUntrusted (env : TyEnv) (seen : List Nat) : Prop :=
  ∀ x ∈ seen, ¬ TrustedAt env x

/-! ## Concrete type graphs used by the individual claims -/

/-- A cyclic type graph: named type `T` (index 0), declared in package
`main`, whose underlying struct (index 1) embeds a field of type `*T`
(index 2). -/
def envCyc : TyEnv := [.named "T" "main" 1, .struct [("T", 2, true)], .ptr 0]

/-- A dynamodb output type carrying a generic `NextToken` field and no
`LastEvaluatedKey`: index 0 the named output type, index 1 its underlying
struct, index 2 the (basic) type of the field. -/
def envDyn : TyEnv :=
  [.named "ListContributorInsightsOutput"
      "github.com/aws/aws-sdk-go-v2/service/dynamodb" 1,
   .struct [("NextToken", 2, false)], .basic]

/-! ## Claim theorems -/

/-- C10: for every input, `(*stringSliceFlag).Set` reports no error;
`Set("")` leaves the slice unchanged; a non-empty value appends its
comma-separated segments, so repeated flag occurrences accumulate instead
of replacing earlier values. -/
theorem stringSliceFlagSet_spec (s : List String) (v v₁ v₂ : String) :
    (stringSliceFlagSet s v).2 = none ∧
    (stringSliceFlagSet s "").1 = s ∧
    (v₁ ≠ "" → (stringSliceFlagSet s v₁).1 = s ++ goSplitComma v₁) ∧
    (v₁ ≠ "" → v₂ ≠ "" →
      (stringSliceFlagSet (stringSliceFlagSet s v₁).1 v₂).1 =
        s ++ goSplitComma v₁ ++ goSplitComma v₂) := by
  refine ⟨?_, ?_, fun h1 => ?_, fun h1 h2 => ?_⟩
  · unfold stringSliceFlagSet
    split <;> rfl
  · rfl
  · simp [stringSliceFlagSet, h1]
  · simp [stringSliceFlagSet, h1, h2]

/-- Witness for C10 at concrete inputs: two flag occurrences accumulate. -/
theorem stringSliceFlagSet_spec_witness :
    (stringSliceFlagSet (stringSliceFlagSet ["a"] "b,c").1 "d").1 =
      ["a", "b", "c", "d"] := by
  have h := (stringSliceFlagSet_spec ["a"] "x" "b,c" "d").2.2.2 (by decide) (by decide)
  rw [h]
  decide

/-- C4: on the cyclic type graph `envCyc` (a struct that embeds a pointer
to itself, with no token field and an untrusted package), the three
traversals return empty / false.  Their totality — termination on every
type graph, cyclic ones included — is established by their definition by
well-founded recursion on the `unvisited` measure, which the visited-set
guard makes decrease at every recursive descent. -/
theorem cyclic_traversals_terminate :
    (hasSpecificField envCyc 0 "LastEvaluatedKey" []).val.1 = false ∧
    (hasPaginationTokenFieldRecursive envCyc
        (getPaginationTokenFields ⟨[], false⟩) 0 []).val.1 = "" ∧
    isAWSSDKType envCyc 0 = false := by
  have hm : isAWSSDKPackage "main" = false := by decide
  refine ⟨?_, ?_, ?_⟩ <;>
    simp [hasSpecificField, hasSpecificFieldEmbedded, hasPaginationTokenFieldRecursive,
      hasPaginationTokenFieldRecursiveEmbedded, isAWSSDKType, isAWSSDKTypeRecursive,
      isAWSSDKTypeRecursiveFields, unwrapPtr, underlyingOf, isStructAt, structFieldsAt,
      isNamedAWSAt, envCyc, getPaginationTokenFields, defaultPaginationTokenFields,
      List.find?, hm]

/-- C1 (divergence witness): on `envDyn` — a type from the registered
service `dynamodb` that has a generic `NextToken` field but none of the
service-specific fields — `hasPaginationTokenField` returns `""`, while
the generic check with a fresh visited set returns `"NextToken"`.  The
single `seen` map created at the top of `hasPaginationTokenField` is
mutated by the failed `hasSpecificField` check and then suppresses the
generic fallback. -/
theorem hasPaginationTokenField_shared_seen_suppresses_fallback :
    hasPaginationTokenField envDyn ⟨[], false⟩ 0 "dynamodb" = "" ∧
    (hasPaginationTokenFieldRecursive envDyn
        (getPaginationTokenFields ⟨[], false⟩) 0 []).val.1 = "NextToken" := by
  have hl : goToLower "dynamodb" = "dynamodb" := by decide
  have ha : apiSpecificPaginationFields "dynamodb" = some ["LastEvaluatedKey"] := by decide
  constructor
  · simp [hasPaginationTokenField, checkServiceFieldsShared, hasSpecificField,
      hasSpecificFieldEmbedded, hasPaginationTokenFieldRecursive, hl, ha,
      unwrapPtr, underlyingOf, isStructAt, structFieldsAt, envDyn,
      getPaginationTokenFields, defaultPaginationTokenFields, List.find?]
  · simp [hasPaginationTokenFieldRecursive, hasPaginationTokenFieldRecursiveEmbedded,
      unwrapPtr, underlyingOf, isStructAt, structFieldsAt, envDyn,
      getPaginationTokenFields, defaultPaginationTokenFields, List.find?]

/-! ### Helper lemmas for the orchestrator claims -/

theorem checkOneAssignRhs_fst {env : TyEnv} {cfg : Config} {lhs : List GoNode}
    {body : GoNode} {i : Nat} {r : GoNode} {p : Nat × String}
    (h : checkOneAssignRhs env cfg lhs body i r = some p) : p.1 = i := by
  cases r with
  | call fn args resTy =>
    simp only [checkOneAssignRhs] at h
    split at h
    · split at h
      · exact Option.noConfusion h
      · split at h
        · exact Option.noConfusion h
        · split at h
          · exact Option.noConfusion h
          · split at h
            · exact Option.noConfusion h
            · split at h
              · exact Option.noConfusion h
              · split at h
                · exact Option.noConfusion h
                · cases h; rfl
    · exact Option.noConfusion h
  | ident n =>
    simp only [checkOneAssignRhs] at h
    exact Option.noConfusion h
  | sel x s =>
    simp only [checkOneAssignRhs] at h
    exact Option.noConfusion h
  | node cs =>
    simp only [checkOneAssignRhs] at h
    exact Option.noConfusion h

theorem mem_checkAssignmentFrom {env : TyEnv} {cfg : Config} {lhs : List GoNode}
    {body : GoNode} {p : Nat × String} :
    ∀ {n : Nat} {rhs : List GoNode}, p ∈ checkAssignmentFrom env cfg lhs body n rhs →
    ∃ r, checkOneAssignRhs env cfg lhs body p.1 r = some p := by
  intro n rhs
  induction rhs generalizing n with
  | nil => intro h; exact absurd h (List.not_mem_nil p)
  | cons r rest ih =>
    intro h
    unfold checkAssignmentFrom at h
    revert h
    split
    · intro h
      rcases List.mem_cons.mp h with heq | hmem
      · subst heq
        have hfst := checkOneAssignRhs_fst (by assumption)
        exact ⟨r, by rw [hfst]; assumption⟩
      · exact ih hmem
    · intro h
      exact ih h

theorem checkOneAssignRhs_none_of_varName_empty {env : TyEnv} {cfg : Config}
    {lhs : List GoNode} {body : GoNode} {i : Nat} {r : GoNode}
    (h : extractVariableName (lhs.getD i (.node [])) = "") :
    checkOneAssignRhs env cfg lhs body i r = none := by
  cases r with
  | call fn args resTy =>
    simp only [checkOneAssignRhs, h]
    split
    · split
      · rfl
      · split
        · rfl
        · split
          · rfl
          · rfl
    · rfl
  | ident n => rfl
  | sel x s => rfl
  | node cs => rfl

/-- C8: an assignment whose left-hand target at the call's position is the
blank identifier `_` produces no diagnostic for that call, whatever the
type, its provenance, and the body. -/
theorem checkAssignment_blank_target_not_reported (env : TyEnv) (cfg : Config)
    (assign : AssignStmt) (body : GoNode) (i : Nat) (msg : String)
    (h : assign.lhs[i]? = some (.ident "_")) :
    (i, msg) ∉ checkAssignment env cfg assign body := by
  intro hmem
  obtain ⟨r, hr⟩ := mem_checkAssignmentFrom hmem
  have hv : extractVariableName (assign.lhs.getD i (.node [])) = "" := by
    have hgd : assign.lhs.getD i (.node []) = .ident "_" := by
      simp [List.getD_eq_getElem?_getD, h]
    rw [hgd]; rfl
  rw [checkOneAssignRhs_none_of_varName_empty hv] at hr
  exact Option.noConfusion hr

/-- Witness for C8: a blank-bound call that would otherwise qualify is not
reported. -/
theorem checkAssignment_blank_target_witness :
    (0, "m") ∉ checkAssignment envDyn ⟨[], false⟩
      ⟨[.ident "_"], [.call (.ident "f") [] (some (.single 0))]⟩ (.node []) :=
  checkAssignment_blank_target_not_reported _ _ _ _ _ _ rfl

/-- C9: a left-hand target that is not a simple identifier (a selector, an
index expression, ...) yields the empty string from `extractVariableName`
and the call site is silently skipped, exactly as for the blank
identifier. -/
theorem checkAssignment_nonident_target_not_reported (env : TyEnv) (cfg : Config)
    (assign : AssignStmt) (body : GoNode) (i : Nat) (msg : String) (e : GoNode)
    (hget : assign.lhs[i]? = some e) (hne : ∀ nm, e ≠ .ident nm) :
    extractVariableName e = "" ∧ (i, msg) ∉ checkAssignment env cfg assign body := by
  have hv : extractVariableName e = "" := by
    cases e with
    | ident n => exact absurd rfl (hne n)
    | sel x s => rfl
    | call fn args resTy => rfl
    | node cs => rfl
  refine ⟨hv, fun hmem => ?_⟩
  obtain ⟨r, hr⟩ := mem_checkAssignmentFrom hmem
  have hv' : extractVariableName (assign.lhs.getD i (.node [])) = "" := by
    have hgd : assign.lhs.getD i (.node []) = e := by
      simp [List.getD_eq_getElem?_getD, hget]
    rw [hgd]; exact hv
  rw [checkOneAssignRhs_none_of_varName_empty hv'] at hr
  exact Option.noConfusion hr

/-- Witness for C9: a struct-field selector target is skipped. -/
theorem checkAssignment_nonident_target_witness :
    extractVariableName (.sel (.ident "x") "F") = "" ∧
    (0, "m") ∉ checkAssignment envDyn ⟨[], false⟩
      ⟨[.sel (.ident "x") "F"], [.call (.ident "f") [] (some (.single 0))]⟩ (.node []) :=
  checkAssignment_nonident_target_not_reported _ _ _ _ _ _ _ rfl
    (fun nm h => GoNode.noConfusion h)

/-- C5 counterexample: a call whose target member name is exactly
`Paginator` does end with the suffix `Paginator`, yet
`hasPaginationHandling` does not accept it (the Go test requires
`len(name) > 9` strictly, i.e. a proper suffix). -/
theorem hasPaginationHandling_bare_paginator_counterexample :
    "Paginator".data.drop ("Paginator".data.length - 9) = "Paginator".data ∧
    hasPaginationHandling (.call (.sel (.ident "c") "Paginator") [] none) "result"
      ["NextToken"] = false := by
  have hA : isPaginatorCallNode (.call (.sel (.ident "c") "Paginator") [] none) = false := by
    decide
  have hB : isTokenAccessNode "result" ["NextToken"] (.sel (.ident "c") "Paginator")
      = false := by decide
  refine ⟨by decide, ?_⟩
  simp [hasPaginationHandling, anyNode, isPaginatorCallNode, isTokenAccessNode, hA, hB]

/-- C5 (amended): `hasPaginationHandling` returns true whenever the body
contains an invocation whose target member name is a proper suffix
extension of `Paginator` (strictly longer than 9 characters and ending in
`Paginator`) or exactly `HasMorePages` or `NextPage` — regardless of the
bound variable and the token fields. -/
theorem hasPaginationHandling_paginator_shape (body : GoNode) (varName : String)
    (tokenFields : List String) (x : GoNode) (args : List GoNode)
    (r : Option GoResultTy) (m : String)
    (hsub : SubNode (.call (.sel x m) args r) body)
    (hm : (9 < m.data.length ∧ m.data.drop (m.data.length - 9) = "Paginator".data) ∨
      m = "HasMorePages" ∨ m = "NextPage") :
    hasPaginationHandling body varName tokenFields = true := by
  have hp : isPaginatorCallNode (.call (.sel x m) args r) = true := by
    rcases hm with ⟨h1, h2⟩ | h | h
    · simp only [isPaginatorCallNode, Bool.or_eq_true, Bool.and_eq_true,
        decide_eq_true_eq, beq_iff_eq]
      exact Or.inl (Or.inl ⟨h1, h2⟩)
    · subst h; simp [isPaginatorCallNode]
    · subst h; simp [isPaginatorCallNode]
  have := anyNode_of_subNode hsub hp
  simp [hasPaginationHandling, this]

/-- Witness for C5: a `NewListBucketsPaginator` call anywhere in the body
counts as pagination handling, without the bound variable appearing. -/
theorem hasPaginationHandling_paginator_shape_witness :
    hasPaginationHandling
      (.node [.call (.sel (.ident "client") "NewListBucketsPaginator") [] none])
      "result" ["NextToken"] = true :=
  hasPaginationHandling_paginator_shape _ _ _ _ _ _ _
    (SubNode.child (List.mem_cons_self _ _) (SubNode.refl _))
    (Or.inl ⟨by decide, by decide⟩)

/-! ### Newline counting for the Diagnostic Builder -/

theorem count_nl_oxfordFrom {l : List String} (hf : ∀ f ∈ l, f.data.count '\n' = 0) :
    ∀ total i, (oxfordFrom total i l).data.count '\n' = 0 := by
  induction l with
  | nil => intro total i; rfl
  | cons f rest ih =>
    intro total i
    have hsep : ∀ s : String,
        (s = ", and " ∨ s = ", " ∨ s = "") → s.data.count '\n' = 0 := by
      rintro s (rfl | rfl | rfl) <;> decide
    simp only [oxfordFrom, String.data_append, List.count_append]
    rw [hf f (List.mem_cons_self _ _), ih (fun g hg => hf g (List.mem_cons_of_mem _ hg))]
    split
    · split <;> decide
    · decide

theorem count_nl_bemFieldsPart {tokenFields : List String}
    (hf : ∀ f ∈ tokenFields, f.data.count '\n' = 0) :
    (bemFieldsPart tokenFields).data.count '\n' = 0 := by
  unfold bemFieldsPart
  split
  · split
    · simp only [String.data_append, List.count_append]
      have hh : (tokenFields.headD "").data.count '\n' = 0 := by
        cases tokenFields with
        | nil => decide
        | cons f rest => exact hf f (List.mem_cons_self _ _)
      rw [hh]
      decide
    · simp only [String.data_append, List.count_append]
      rw [count_nl_oxfordFrom hf]
      decide
  · decide

theorem count_nl_bemRemedyPart {info : apiCallInfo}
    (hm : info.methodName.data.count '\n' = 0) :
    (bemRemedyPart info).data.count '\n' = 0 := by
  unfold bemRemedyPart
  split
  · simp only [String.data_append, List.count_append]
    rw [hm]
    decide
  · decide

theorem count_nl_bemVarPart {varName : String} (hv : varName.data.count '\n' = 0) :
    (bemVarPart varName).data.count '\n' = 0 := by
  unfold bemVarPart
  split
  · simp only [String.data_append, List.count_append]
    rw [hv]
    decide
  · decide

theorem count_nl_bemLoopFieldPart {tokenFields : List String}
    (hf : ∀ f ∈ tokenFields, f.data.count '\n' = 0) :
    (bemLoopFieldPart tokenFields).data.count '\n' = 0 := by
  have hh : (tokenFields.headD "").data.count '\n' = 0 := by
    cases tokenFields with
    | nil => decide
    | cons f rest => exact hf f (List.mem_cons_self _ _)
  unfold bemLoopFieldPart
  split
  · split <;>
      (simp only [String.data_append, List.count_append]; rw [hh]; decide)
  · decide

/-- C7 counterexample: a token field containing a line break makes the
message carry two line breaks, so the claim does not hold for every
token-field list. -/
theorem buildErrorMessage_newline_counterexample :
    (["A\nB"] ≠ ([] : List String)) ∧
    (buildErrorMessage ["A\nB"] "r"
        { methodName := "", serviceName := "", typeName := "" }).data.count '\n' = 3 :=
  ⟨by decide, by decide⟩

/-- C7 (amended): for every non-empty token-field list, variable name and
call info whose inserted components (token fields, variable name, method
name) contain no line break, the message contains exactly one line break
(two segments), and the remedy names `New<method>Paginator` exactly when
both the method name and the service name are non-empty, the generic
phrase `a paginator` otherwise. -/
theorem buildErrorMessage_two_segments (tokenFields : List String)
    (varName : String) (info : apiCallInfo)
    (hne : tokenFields ≠ [])
    (hf : ∀ f ∈ tokenFields, f.data.count '\n' = 0)
    (hv : varName.data.count '\n' = 0)
    (hm : info.methodName.data.count '\n' = 0) :
    (buildErrorMessage tokenFields varName info).data.count '\n' = 1 ∧
    (info.serviceName ≠ "" ∧ info.methodName ≠ "" →
      List.IsInfix ("New" ++ info.methodName ++ "Paginator").data
        (buildErrorMessage tokenFields varName info).data) ∧
    (info.serviceName = "" ∨ info.methodName = "" →
      List.IsInfix "a paginator".data
        (buildErrorMessage tokenFields varName info).data) := by
  refine ⟨?_, fun hcond => ?_, fun hcond => ?_⟩
  · simp only [buildErrorMessage, String.data_append, List.count_append]
    rw [count_nl_bemFieldsPart hf, count_nl_bemRemedyPart hm,
      count_nl_bemVarPart hv, count_nl_bemLoopFieldPart hf]
    decide
  · refine ⟨("missing pagination handling for AWS SDK List API call"
        ++ bemFieldsPart tokenFields
        ++ "\nWhen there are many results, only the first page is returned. Use ").data,
      (" or loop with " ++ bemVarPart varName ++ bemLoopFieldPart tokenFields).data, ?_⟩
    simp only [buildErrorMessage, bemRemedyPart, if_pos hcond, String.data_append,
      List.append_assoc]
  · have hneg : ¬ (info.serviceName ≠ "" ∧ info.methodName ≠ "") := by
      rcases hcond with h | h <;> simp [h]
    refine ⟨("missing pagination handling for AWS SDK List API call"
        ++ bemFieldsPart tokenFields
        ++ "\nWhen there are many results, only the first page is returned. Use ").data,
      (" or loop with " ++ bemVarPart varName ++ bemLoopFieldPart tokenFields).data, ?_⟩
    simp only [buildErrorMessage, bemRemedyPart, if_neg hneg, String.data_append,
      List.append_assoc]

/-- Witness for C7 at a fully known call site: one line break and the
named paginator suggestion. -/
theorem buildErrorMessage_two_segments_witness :
    (buildErrorMessage ["NextToken"] "result"
        { methodName := "ListBuckets", serviceName := "s3",
          typeName := "ListBucketsOutput" }).data.count '\n' = 1 ∧
    List.IsInfix ("New" ++ "ListBuckets" ++ "Paginator").data
      (buildErrorMessage ["NextToken"] "result"
        { methodName := "ListBuckets", serviceName := "s3",
          typeName := "ListBucketsOutput" }).data := by
  have h := buildErrorMessage_two_segments ["NextToken"] "result"
    { methodName := "ListBuckets", serviceName := "s3", typeName := "ListBucketsOutput" }
    (by decide) (by decide) (by decide) (by decide)
  exact ⟨h.1, h.2.1 ⟨by decide, by decide⟩⟩

/-! ### Service-specific field precedence (C2) -/

theorem apiSpecificPaginationFields_disjoint_defaults {s : String} {sfs : List String}
    (h : apiSpecificPaginationFields s = some sfs) :
    ∀ f ∈ sfs, f ∉ defaultPaginationTokenFields := by
  unfold apiSpecificPaginationFields at h
  split_ifs at h
  all_goals first
  | (cases h; decide)
  | exact Option.noConfusion h

/-- C2: for a known service (registered in the per-service map) with at
least one of its registered fields structurally present,
`getAllPaginationTokenFields` returns exactly the present service-specific
fields in registered order, and none of them is a generic default field. -/
theorem getAllPaginationTokenFields_service_override (env : TyEnv) (cfg : Config)
    (t : Nat) (serviceName : String) (sfs : List String)
    (hlk : apiSpecificPaginationFields (goToLower serviceName) = some sfs)
    (hpres : ∃ f ∈ sfs, (hasSpecificField env t f []).val.1 = true) :
    getAllPaginationTokenFields env cfg t serviceName =
      sfs.filter (fun f => (hasSpecificField env t f []).val.1) ∧
    ∀ f ∈ getAllPaginationTokenFields env cfg t serviceName,
      f ∉ defaultPaginationTokenFields := by
  obtain ⟨f0, hf0, hp0⟩ := hpres
  have hsn : serviceName ≠ "" := by
    intro he
    rw [he] at hlk
    have hzero : apiSpecificPaginationFields (goToLower "") = none := by decide
    rw [hzero] at hlk
    exact Option.noConfusion hlk
  have hmemf : f0 ∈ sfs.filter (fun f => (hasSpecificField env t f []).val.1) :=
    List.mem_filter.mpr ⟨hf0, hp0⟩
  have hne2 : sfs.filter (fun f => (hasSpecificField env t f []).val.1) ≠ [] :=
    List.ne_nil_of_mem hmemf
  have heq : getAllPaginationTokenFields env cfg t serviceName =
      sfs.filter (fun f => (hasSpecificField env t f []).val.1) := by
    simp only [getAllPaginationTokenFields, hlk, ne_eq, hsn, not_false_eq_true,
      if_true, hne2]
  refine ⟨heq, fun f hf => ?_⟩
  rw [heq] at hf
  exact apiSpecificPaginationFields_disjoint_defaults hlk f (List.mem_filter.mp hf).1

/-- A dynamodb output type with both `LastEvaluatedKey` (service-specific)
and `NextToken` (generic) present. -/
def envDyn2 : TyEnv :=
  [.named "QueryOutput" "github.com/aws/aws-sdk-go-v2/service/dynamodb" 1,
   .struct [("LastEvaluatedKey", 2, false), ("NextToken", 2, false)], .basic]

/-- Witness for C2: with both a service field and a generic field present,
only the service field is reported. -/
theorem getAllPaginationTokenFields_service_override_witness :
    getAllPaginationTokenFields envDyn2 ⟨[], false⟩ 0 "dynamodb" = ["LastEvaluatedKey"] ∧
    "NextToken" ∉ getAllPaginationTokenFields envDyn2 ⟨[], false⟩ 0 "dynamodb" := by
  have hlk : apiSpecificPaginationFields (goToLower "dynamodb") =
      some ["LastEvaluatedKey"] := by decide
  have hsf : (hasSpecificField envDyn2 0 "LastEvaluatedKey" []).val.1 = true := by
    simp [hasSpecificField, unwrapPtr, underlyingOf, isStructAt, structFieldsAt, envDyn2]
  have h := getAllPaginationTokenFields_service_override envDyn2 ⟨[], false⟩ 0 "dynamodb"
    ["LastEvaluatedKey"] hlk ⟨"LastEvaluatedKey", by decide, hsf⟩
  constructor
  · rw [h.1, List.filter_cons, hsf]
    rfl
  · intro hmem
    exact (h.2 "NextToken" hmem) (by decide)

/-- C3: when the struct at `t` has a direct field whose name is among the
candidates, `hasPaginationTokenFieldRecursive` returns the earliest
candidate (in candidate-list order) that names a direct field — a name of
a directly declared field, decided before any embedded field is visited,
for every candidate order and independently of field declaration order
(only name membership in the direct field list matters). -/
theorem hasPaginationTokenFieldRecursive_direct_priority (env : TyEnv)
    (tokenFields : List String) (t : Nat) (seen : List Nat)
    (h1 : unwrapPtr env t ∉ seen)
    (h2 : isStructAt env (underlyingOf env (unwrapPtr env t)) = true)
    (hmatch : ∃ tf ∈ tokenFields,
      ∃ fd ∈ structFieldsAt env (underlyingOf env (unwrapPtr env t)), fd.1 = tf) :
    ∃ tf, (hasPaginationTokenFieldRecursive env tokenFields t seen).val.1 = tf ∧
      tokenFields.find? (fun tf' =>
        (structFieldsAt env (underlyingOf env (unwrapPtr env t))).any
          (fun fd => fd.1 == tf')) = some tf ∧
      ∃ fd ∈ structFieldsAt env (underlyingOf env (unwrapPtr env t)), fd.1 = tf := by
  have hex : ∃ tf ∈ tokenFields,
      (structFieldsAt env (underlyingOf env (unwrapPtr env t))).any
        (fun fd => fd.1 == tf) = true := by
    obtain ⟨tf0, htf0, fd0, hfd0, hname⟩ := hmatch
    exact ⟨tf0, htf0, List.any_eq_true.mpr ⟨fd0, hfd0, beq_iff_eq.mpr hname⟩⟩
  have hsome : (tokenFields.find? (fun tf' =>
      (structFieldsAt env (underlyingOf env (unwrapPtr env t))).any
        (fun fd => fd.1 == tf'))).isSome := by
    rw [List.find?_isSome]
    obtain ⟨tf0, htf0, hany⟩ := hex
    exact ⟨tf0, htf0, hany⟩
  obtain ⟨tf, htf⟩ := Option.isSome_iff_exists.mp hsome
  refine ⟨tf, ?_, htf, ?_⟩
  · simp only [hasPaginationTokenFieldRecursive]
    rw [dif_neg h1, dif_pos h2, htf]
  · have hp := List.find?_some htf
    simp only [List.any_eq_true, beq_iff_eq] at hp
    exact hp

/-- A struct (index 0) with a direct `Marker` field and an embedded member
`E` (index 2, underlying struct index 3) that carries `NextToken`. -/
def envMix : TyEnv :=
  [.struct [("Marker", 1, false), ("E", 2, true)], .basic,
   .named "E" "p" 3, .struct [("NextToken", 1, false)]]

/-- Witness for C3: with candidate order `[NextToken, Marker]`, the direct
`Marker` field wins over the embedded `NextToken`. -/
theorem hasPaginationTokenFieldRecursive_direct_priority_witness :
    (hasPaginationTokenFieldRecursive envMix ["NextToken", "Marker"] 0 []).val.1 =
      "Marker" := by
  obtain ⟨tf, hres, hfind, hdirect⟩ :=
    hasPaginationTokenFieldRecursive_direct_priority envMix ["NextToken", "Marker"] 0 []
      (by decide) (by decide)
      ⟨"Marker", by decide, ("Marker", 1, false), by decide, rfl⟩
  have hval : List.find? (fun tf' =>
      (structFieldsAt envMix (underlyingOf envMix (unwrapPtr envMix 0))).any
        (fun fd => fd.1 == tf')) ["NextToken", "Marker"] = some "Marker" := by decide
  rw [hval] at hfind
  exact (Option.some.inj hfind) ▸ hres

/-! ### Provenance characterization (C6) -/

theorem isNamedAWSAt_iff {env : TyEnv} {x : Nat} :
    isNamedAWSAt env x = true ↔ TrustedAt env x := by
  unfold isNamedAWSAt TrustedAt
  cases hx : env[x]? with
  | none => simp
  | some node =>
    cases node with
    | named nm pkg u =>
      constructor
      · intro h
        exact ⟨nm, pkg, u, rfl, h⟩
      · rintro ⟨nm', pkg', u', heq, hp⟩
        injection heq with h2
        injection h2 with e1 e2 e3
        subst e2
        exact hp
    | basic => simp
    | ptr e => simp
    | struct fds => simp

theorem reach_unwrapPtr (env : TyEnv) (t : Nat) :
    Relation.ReflTransGen (TyStep env) t (unwrapPtr env t) := by
  unfold unwrapPtr
  cases hx : env[t]? with
  | none => exact Relation.ReflTransGen.refl
  | some node =>
    cases node with
    | ptr e => exact Relation.ReflTransGen.single (TyStep.ptr hx)
    | basic => exact Relation.ReflTransGen.refl
    | named nm pkg u => exact Relation.ReflTransGen.refl
    | struct fds => exact Relation.ReflTransGen.refl

theorem reach_underlyingOf (env : TyEnv) (t : Nat) :
    Relation.ReflTransGen (TyStep env) t (underlyingOf env t) := by
  unfold underlyingOf
  cases hx : env[t]? with
  | none => exact Relation.ReflTransGen.refl
  | some node =>
    cases node with
    | named nm pkg u => exact Relation.ReflTransGen.single (TyStep.underlying hx)
    | basic => exact Relation.ReflTransGen.refl
    | ptr e => exact Relation.ReflTransGen.refl
    | struct fds => exact Relation.ReflTransGen.refl

theorem structAt_eq {env : TyEnv} {u : Nat} (h : isStructAt env u = true) :
    env[u]? = some (.struct (structFieldsAt env u)) := by
  unfold isStructAt at h
  unfold structFieldsAt
  cases hx : env[u]? with
  | none => rw [hx] at h; exact Bool.noConfusion h
  | some node =>
    cases node with
    | struct fds => rfl
    | basic => rw [hx] at h; exact Bool.noConfusion h
    | ptr e => rw [hx] at h; exact Bool.noConfusion h
    | named nm pkg un => rw [hx] at h; exact Bool.noConfusion h

/-- Soundness of the provenance search: a `true` answer exhibits a type
reachable by the traversal steps that is a named type from a trusted
package (joint statement for the two mutually recursive functions, by
strong induction on the unvisited count). -/
theorem isAWSSDKTypeRecursive_sound (env : TyEnv) : ∀ n : Nat,
    (∀ t seen, unvisited env seen ≤ n →
      (isAWSSDKTypeRecursive env t seen).val.1 = true →
      ∃ x, Relation.ReflTransGen (TyStep env) t x ∧ TrustedAt env x) ∧
    (∀ (fds : List (String × Nat × Bool)) seen, unvisited env seen ≤ n →
      (isAWSSDKTypeRecursiveFields env fds seen).val.1 = true →
      ∃ fd ∈ fds, ∃ x, Relation.ReflTransGen (TyStep env) fd.2.1 x ∧ TrustedAt env x) := by
  intro n
  induction n using Nat.strong_induction_on with
  | _ n IH =>
    have recPart : ∀ t seen, unvisited env seen ≤ n →
        (isAWSSDKTypeRecursive env t seen).val.1 = true →
        ∃ x, Relation.ReflTransGen (TyStep env) t x ∧ TrustedAt env x := by
      intro t seen hb htrue
      rw [isAWSSDKTypeRecursive] at htrue
      by_cases h1 : unwrapPtr env t ∈ seen
      · rw [dif_pos h1] at htrue
        exact absurd htrue (by simp)
      · rw [dif_neg h1] at htrue
        by_cases hnm : isNamedAWSAt env (unwrapPtr env t) = true
        · exact ⟨unwrapPtr env t, reach_unwrapPtr env t, isNamedAWSAt_iff.mp hnm⟩
        · rw [if_neg hnm] at htrue
          by_cases h2 : isStructAt env (underlyingOf env (unwrapPtr env t)) = true
          · rw [dif_pos h2] at htrue
            have hlt : unvisited env (unwrapPtr env t :: seen) < unvisited env seen :=
              unvisited_lt_cons (lt_length_of_isStructAt h2) h1
            have hloop := (IH (n - 1) (by omega)).2
              (structFieldsAt env (underlyingOf env (unwrapPtr env t)))
              (unwrapPtr env t :: seen) (by omega) htrue
            obtain ⟨fd, hfd, x, hreach, htrust⟩ := hloop
            have hstep : TyStep env (underlyingOf env (unwrapPtr env t)) fd.2.1 :=
              TyStep.field (structAt_eq h2) hfd
            exact ⟨x, ((reach_unwrapPtr env t).trans
              ((reach_underlyingOf env (unwrapPtr env t)).trans
                ((Relation.ReflTransGen.single hstep).trans hreach))), htrust⟩
          · rw [dif_neg h2] at htrue
            exact absurd htrue (by simp)
    refine ⟨recPart, ?_⟩
    intro fds
    induction fds with
    | nil =>
      intro seen hb htrue
      rw [isAWSSDKTypeRecursiveFields] at htrue
      exact absurd htrue (by simp)
    | cons fd0 rest ihf =>
      intro seen hb htrue
      by_cases hr1 : (isAWSSDKTypeRecursive env fd0.2.1 seen).val.1 = true
      · obtain ⟨x, hreach, htrust⟩ := recPart fd0.2.1 seen hb hr1
        exact ⟨fd0, List.mem_cons_self _ _, x, hreach, htrust⟩
      · rw [isAWSSDKTypeRecursiveFields] at htrue
        rw [if_neg hr1] at htrue
        have hsub := (isAWSSDKTypeRecursive env fd0.2.1 seen).property
        have hb2 : unvisited env (isAWSSDKTypeRecursive env fd0.2.1 seen).val.2 ≤ n :=
          le_trans (unvisited_le_of_subset hsub) hb
        obtain ⟨fd, hfd, x, hreach, htrust⟩ := ihf _ hb2 htrue
        exact ⟨fd, List.mem_cons_of_mem _ hfd, x, hreach, htrust⟩

/-- A visit that answers `false` adds only untrusted nodes to the visited
list (a visit of a directly trusted node answers `true` immediately). -/
theorem isAWSSDKTypeRecursive_seen_untrusted (env : TyEnv) : ∀ n : Nat,
    (∀ t seen, unvisited env seen ≤ n → SeenUntrusted env seen →
      (isAWSSDKTypeRecursive env t seen).val.1 = false →
      SeenUntrusted env (isAWSSDKTypeRecursive env t seen).val.2) ∧
    (∀ (fds : List (String × Nat × Bool)) seen, unvisited env seen ≤ n →
      SeenUntrusted env seen →
      (isAWSSDKTypeRecursiveFields env fds seen).val.1 = false →
      SeenUntrusted env (isAWSSDKTypeRecursiveFields env fds seen).val.2) := by
  intro n
  induction n using Nat.strong_induction_on with
  | _ n IH =>
    have recPart : ∀ t seen, unvisited env seen ≤ n → SeenUntrusted env seen →
        (isAWSSDKTypeRecursive env t seen).val.1 = false →
        SeenUntrusted env (isAWSSDKTypeRecursive env t seen).val.2 := by
      intro t seen hb hseen hfalse
      rw [isAWSSDKTypeRecursive] at hfalse ⊢
      by_cases h1 : unwrapPtr env t ∈ seen
      · rw [dif_pos h1]
        exact hseen
      · rw [dif_neg h1] at hfalse ⊢
        by_cases hnm : isNamedAWSAt env (unwrapPtr env t) = true
        · rw [if_pos hnm] at hfalse
          exact absurd hfalse (by simp)
        · rw [if_neg hnm] at hfalse ⊢
          have hcons : SeenUntrusted env (unwrapPtr env t :: seen) := by
            intro x hx
            rcases List.mem_cons.mp hx with heq | hmem
            · subst heq
              exact fun htr => hnm (isNamedAWSAt_iff.mpr htr)
            · exact hseen x hmem
          by_cases h2 : isStructAt env (underlyingOf env (unwrapPtr env t)) = true
          · rw [dif_pos h2] at hfalse ⊢
            have hlt : unvisited env (unwrapPtr env t :: seen) < unvisited env seen :=
              unvisited_lt_cons (lt_length_of_isStructAt h2) h1
            exact (IH (n - 1) (by omega)).2 _ _ (by omega) hcons hfalse
          · rw [dif_neg h2]
            exact hcons
    refine ⟨recPart, ?_⟩
    intro fds
    induction fds with
    | nil =>
      intro seen hb hseen hfalse
      rw [isAWSSDKTypeRecursiveFields]
      exact hseen
    | cons fd0 rest ihf =>
      intro seen hb hseen hfalse
      rw [isAWSSDKTypeRecursiveFields] at hfalse ⊢
      by_cases hr1 : (isAWSSDKTypeRecursive env fd0.2.1 seen).val.1 = true
      · rw [if_pos hr1] at hfalse
        exact absurd hfalse (by simp)
      · rw [if_neg hr1] at hfalse ⊢
        have hr1f : (isAWSSDKTypeRecursive env fd0.2.1 seen).val.1 = false :=
          Bool.eq_false_iff.mpr hr1
        have hseen2 := recPart fd0.2.1 seen hb hseen hr1f
        have hb2 : unvisited env (isAWSSDKTypeRecursive env fd0.2.1 seen).val.2 ≤ n :=
          le_trans (unvisited_le_of_subset
            (isAWSSDKTypeRecursive env fd0.2.1 seen).property) hb
        exact ihf _ hb2 hseen2 hfalse

/-- A visit of a node whose (pointer-unwrapped) target is directly trusted
answers `true`, provided no trusted node has been marked visited. -/
theorem isAWSSDKTypeRecursive_hit (env : TyEnv) (t : Nat) (seen : List Nat)
    (hseen : SeenUntrusted env seen) (htr : TrustedAt env (unwrapPtr env t)) :
    (isAWSSDKTypeRecursive env t seen).val.1 = true := by
  have h1 : unwrapPtr env t ∉ seen := fun hm => hseen _ hm htr
  rw [isAWSSDKTypeRecursive, dif_neg h1, if_pos (isNamedAWSAt_iff.mpr htr)]

/-- The all-fields loop answers `true` as soon as some field's type
(pointer-unwrapped) is directly trusted, whatever untrusted nodes earlier
iterations may have marked. -/
theorem isAWSSDKTypeRecursiveFields_hit (env : TyEnv) :
    ∀ (fds : List (String × Nat × Bool)) (seen : List Nat),
    SeenUntrusted env seen →
    (∃ fd ∈ fds, TrustedAt env (unwrapPtr env fd.2.1)) →
    (isAWSSDKTypeRecursiveFields env fds seen).val.1 = true := by
  intro fds
  induction fds with
  | nil =>
    rintro seen _ ⟨fd, hfd, _⟩
    exact absurd hfd (List.not_mem_nil _)
  | cons fd0 rest ih =>
    rintro seen hseen ⟨fd, hfd, htr⟩
    by_cases hr1 : (isAWSSDKTypeRecursive env fd0.2.1 seen).val.1 = true
    · rw [isAWSSDKTypeRecursiveFields, if_pos hr1]
    · rcases List.mem_cons.mp hfd with heq | hmem
      · subst heq
        exact absurd (isAWSSDKTypeRecursive_hit env fd.2.1 seen hseen htr) hr1
      · have hr1f : (isAWSSDKTypeRecursive env fd0.2.1 seen).val.1 = false :=
          Bool.eq_false_iff.mpr hr1
        have hseen2 := (isAWSSDKTypeRecursive_seen_untrusted env
          (unvisited env seen)).1 fd0.2.1 seen (le_refl _) hseen hr1f
        rw [isAWSSDKTypeRecursiveFields, if_neg hr1]
        exact ih _ hseen2 ⟨fd, hmem, htr⟩

theorem findSubstrIdx_append_isSome (mark : List Char) :
    ∀ (a b : List Char), (findSubstrIdx (a ++ mark ++ b) mark).isSome = true := by
  intro a
  induction a with
  | nil =>
    intro b
    have hp : mark.isPrefixOf (([] : List Char) ++ mark ++ b) = true := by
      rw [List.isPrefixOf_iff_prefix]
      simpa using List.prefix_append mark b
    rw [findSubstrIdx.eq_def, if_pos hp]
    rfl
  | cons c a' ih =>
    intro b
    simp only [List.cons_append]
    rw [findSubstrIdx.eq_def]
    split
    · rfl
    · cases hfo : findSubstrIdx (a' ++ mark ++ b) mark with
      | none =>
        have := ih b
        rw [hfo] at this
        exact absurd this (by simp)
      | some k =>
        show (Option.map (fun x => x + 1)
          (findSubstrIdx (a' ++ mark ++ b) mark)).isSome = true
        rw [hfo]
        rfl

/-- A double pointer to a trusted named type: `isAWSSDKType` stops after
one pointer unwrap and answers false, although the trusted type is
reachable by two unwrapping steps. -/
def envPP : TyEnv :=
  [.ptr 1, .ptr 2, .named "Client" "github.com/aws/aws-sdk-go-v2/service/s3" 3, .basic]

/-- C6 counterexample: on `envPP`, a trusted named type is reachable from
index 0 by pointer unwrapping alone, yet `isAWSSDKType` answers false —
the claimed if-and-only-if with step-reachability fails (only one pointer
level is unwrapped per visited node). -/
theorem isAWSSDKType_double_pointer_counterexample :
    isAWSSDKType envPP 0 = false ∧
    Relation.ReflTransGen (TyStep envPP) 0 2 ∧ TrustedAt envPP 2 := by
  refine ⟨?_, ?_, ?_⟩
  · simp [isAWSSDKType, isAWSSDKTypeRecursive, isAWSSDKTypeRecursiveFields, unwrapPtr,
      underlyingOf, isStructAt, structFieldsAt, isNamedAWSAt, envPP]
  · exact Relation.ReflTransGen.head (TyStep.ptr rfl)
      (Relation.ReflTransGen.single (TyStep.ptr rfl))
  · exact ⟨"Client", "github.com/aws/aws-sdk-go-v2/service/s3", 3, rfl, by decide⟩

/-- C6 (amended): `isAWSSDKType` answers true only if a named type from a
package whose path contains the AWS SDK marker is reachable by the
traversal steps (pointer unwrap, named-to-underlying, struct-field
descent); conversely it answers true when the (one-level pointer-
unwrapped) type is itself such a named type, and when the underlying
struct holds such a type as any field, embedded or not; and the marker is
recognized anywhere inside the package path, not only as a prefix. -/
theorem isAWSSDKType_trust_characterization (env : TyEnv) (t : Nat) :
    (isAWSSDKType env t = true →
      ∃ x, Relation.ReflTransGen (TyStep env) t x ∧ TrustedAt env x) ∧
    (TrustedAt env (unwrapPtr env t) → isAWSSDKType env t = true) ∧
    (isStructAt env (underlyingOf env (unwrapPtr env t)) = true →
      ∀ fd ∈ structFieldsAt env (underlyingOf env (unwrapPtr env t)),
        TrustedAt env (unwrapPtr env fd.2.1) → isAWSSDKType env t = true) ∧
    (∀ pre post : String, isAWSSDKPackage (pre ++ awsSDKMarker ++ post) = true) := by
  refine ⟨fun h => ?_, fun htr => ?_, fun h2 fd hfd htr => ?_, fun pre post => ?_⟩
  · exact (isAWSSDKTypeRecursive_sound env (unvisited env [])).1 t [] (le_refl _) h
  · exact isAWSSDKTypeRecursive_hit env t []
      (fun x hx => absurd hx (List.not_mem_nil x)) htr
  · by_cases hnm : isNamedAWSAt env (unwrapPtr env t) = true
    · rw [isAWSSDKType, isAWSSDKTypeRecursive,
        dif_neg (List.not_mem_nil (unwrapPtr env t)), if_pos hnm]
    · have hseen1 : SeenUntrusted env [unwrapPtr env t] := by
        intro x hx
        rcases List.mem_cons.mp hx with heq | hmem
        · subst heq
          exact fun htr' => hnm (isNamedAWSAt_iff.mpr htr')
        · exact absurd hmem (List.not_mem_nil x)
      rw [isAWSSDKType, isAWSSDKTypeRecursive,
        dif_neg (List.not_mem_nil (unwrapPtr env t)), if_neg hnm, dif_pos h2]
      exact isAWSSDKTypeRecursiveFields_hit env _ _ hseen1 ⟨fd, hfd, htr⟩
  · unfold isAWSSDKPackage
    have hd : (pre ++ awsSDKMarker ++ post).data =
        pre.data ++ awsSDKMarker.data ++ post.data := by
      simp [String.data_append]
    rw [hd]
    exact findSubstrIdx_append_isSome awsSDKMarker.data pre.data post.data

/-- A plain struct (index 0) holding a trusted named type (index 1) as a
non-embedded named field. -/
def envSDK : TyEnv :=
  [.struct [("Client", 1, false)],
   .named "Client" "github.com/aws/aws-sdk-go-v2/service/s3" 2, .basic]

/-- Witness for C6: a struct holding a trusted type as a non-embedded
field is recognized as trusted. -/
theorem isAWSSDKType_trust_characterization_witness :
    isAWSSDKType envSDK 0 = true := by
  have htr : TrustedAt envSDK (unwrapPtr envSDK 1) :=
    ⟨"Client", "github.com/aws/aws-sdk-go-v2/service/s3", 2, rfl, by decide⟩
  exact (isAWSSDKType_trust_characterization envSDK 0).2.2.1 (by decide)
    ("Client", 1, false) (by decide) htr
